import Mathlib

/-!
# Verification of the martingale-strategy-calc calculation core

Shallow embedding of the calculation core of the repository:
* the odds normalizer (`src/utils/oddsConverter.js`),
* the progression engine, statistics engine and session simulator
  (`src/utils/martingaleCalculator.js`).

Modelling conventions:
* JavaScript numbers that can be `NaN` or `±Infinity` (the raw parse results
  feeding the odds normalizer) are modelled by `JSNum`, a rational number
  extended with the three special values, with JS comparison semantics
  (comparisons involving `NaN` are false) and JS division semantics
  (division by zero yields an infinity or `NaN`).
* Numbers that the code has already validated to be finite (bet sizes,
  bankrolls, probabilities) are modelled by `ℚ`; the `typeof x === "number"`
  and `isFinite(x)` validation checks of the source are absorbed by the type.
* String parsing (`parseFloat`, `parseInt`, `split("/").map(Number)`) is not
  re-implemented; an input value is represented by the triple of its possible
  parse results (`ParsedInput`), universally quantified in the theorems, so a
  statement about every `ParsedInput` covers every string or number input.
* Fallible code (`throw`) is modelled with `Except JsErr`; the property
  accesses on `undefined` that throw a `TypeError` become the
  `JsErr.typeError` value.
-/

deriving instance DecidableEq for Except

/-- Error values thrown by the JavaScript code: ordinary `Error` objects
(thrown explicitly with a message) and `TypeError`s (thrown implicitly by
property access on `undefined`). -/
inductive JsErr where
  | error (msg : String) : JsErr
  | typeError (msg : String) : JsErr
deriving DecidableEq, Repr

/-- A JavaScript number: a finite value (idealized as a rational; double
rounding and overflow of finite arithmetic are not modelled), `NaN`, or an
infinity. -/
inductive JSNum where
  | fin : ℚ → JSNum
  | nan : JSNum
  | posInf : JSNum
  | negInf : JSNum
deriving DecidableEq, Repr

namespace JSNum

/-- JS `isNaN`. -/
def isNaN : JSNum → Bool
  | nan => true
  | _ => false

/-- JS `isFinite`. -/
def isFinite : JSNum → Bool
  | fin _ => true
  | _ => false

/-- JS `<` on numbers: any comparison with `NaN` is false. -/
def lt : JSNum → JSNum → Bool
  | nan, _ => false
  | _, nan => false
  | fin a, fin b => decide (a < b)
  | fin _, posInf => true
  | fin _, negInf => false
  | posInf, _ => false
  | negInf, negInf => false
  | negInf, _ => true

/-- JS `<=` on numbers: any comparison with `NaN` is false. -/
def le : JSNum → JSNum → Bool
  | nan, _ => false
  | _, nan => false
  | fin a, fin b => decide (a ≤ b)
  | fin _, posInf => true
  | fin _, negInf => false
  | posInf, posInf => true
  | posInf, _ => false
  | negInf, _ => true

/-- JS `Math.abs`. -/
def abs : JSNum → JSNum
  | fin a => fin |a|
  | nan => nan
  | posInf => posInf
  | negInf => posInf

/-- JS `+` on numbers. -/
def add : JSNum → JSNum → JSNum
  | nan, _ => nan
  | _, nan => nan
  | fin a, fin b => fin (a + b)
  | posInf, negInf => nan
  | negInf, posInf => nan
  | posInf, _ => posInf
  | _, posInf => posInf
  | negInf, _ => negInf
  | _, negInf => negInf

/-- JS `/` on numbers (`x/0` is an infinity for `x ≠ 0` and `NaN` for
`0/0`; the sign of a zero divisor is not modelled since `ℚ` has no `-0`). -/
def div : JSNum → JSNum → JSNum
  | nan, _ => nan
  | _, nan => nan
  | fin a, fin b =>
      if b = 0 then (if a = 0 then nan else if 0 < a then posInf else negInf)
      else fin (a / b)
  | fin _, posInf => fin 0
  | fin _, negInf => fin 0
  | posInf, fin b => if 0 ≤ b then posInf else negInf
  | negInf, fin b => if 0 ≤ b then negInf else posInf
  | posInf, _ => nan
  | negInf, _ => nan

/-- JS `Math.max` on two numbers: `NaN` if either argument is `NaN`. -/
def max (a b : JSNum) : JSNum :=
  if a.isNaN ∨ b.isNaN then nan else if a.lt b then b else a

end JSNum

/-- The four odds quoting conventions (`OddsType` in `oddsConverter.js`). -/
inductive OddsType where
  | decimal
  | american
  | fractional
  | implied
deriving DecidableEq, Repr

/-- An odds input value (string or number), represented by what the three
parsers of the source extract from it: `toFloat` is the result of
`parseFloat(odds)`, `toInt` the result of `parseInt(odds)`, and `toFrac` the
first two entries of `odds.split("/").map(Number)` (`none` when `split`
throws because the input is not a string, a case the source catches). -/
structure ParsedInput where
  toFloat : JSNum
  toInt : JSNum
  toFrac : Option (JSNum × JSNum)
deriving DecidableEq, Repr

/-- `americanToDecimal` from `oddsConverter.js` (the numeric branch: the
argument has already been through `parseInt`). -/
def americanToDecimal (num : JSNum) : JSNum :=
  if (JSNum.fin 0).lt num then
    JSNum.max ((num.div (JSNum.fin 100)).add (JSNum.fin 1)) (JSNum.fin (101/100))
  else if num.lt (JSNum.fin 0) then
    let absNum := num.abs
    if absNum.lt (JSNum.fin 100) then JSNum.fin (101/100)
    else JSNum.max (((JSNum.fin 100).div absNum).add (JSNum.fin 1)) (JSNum.fin (101/100))
  else
    JSNum.fin (101/100)

/-- `fractionalToDecimal` from `oddsConverter.js`, on the parse result of
`fractional.split("/").map(Number)` (`none` = the `try` block threw). -/
def fractionalToDecimal (fr : Option (JSNum × JSNum)) : JSNum :=
  match fr with
  | none => JSNum.fin (101/100)
  | some (numerator, denominator) =>
      if numerator.isNaN ∨ denominator.isNaN ∨ denominator = JSNum.fin 0 then
        JSNum.fin (101/100)
      else
        let result := (numerator.div denominator).add (JSNum.fin 1)
        if result.isFinite = false ∨ result.lt (JSNum.fin (101/100)) then
          JSNum.fin (101/100)
        else result

/-- `impliedProbabilityToDecimal` from `oddsConverter.js`. -/
def impliedProbabilityToDecimal (probability : JSNum) : JSNum :=
  if probability.le (JSNum.fin 0) ∨ (JSNum.fin 100).le probability ∨
      probability.isFinite = false then
    JSNum.fin (101/100)
  else (JSNum.fin 100).div probability

/-- `convertToDecimal` from `oddsConverter.js`: dispatch on the odds type,
then the final guard clamping any non-finite or small result to `1.01`.
The guard makes the returned value a genuine finite number, hence the `ℚ`
return type. -/
def convertToDecimal (odds : ParsedInput) (type : OddsType) : ℚ :=
  let result : JSNum :=
    match type with
    | OddsType.decimal => odds.toFloat
    | OddsType.american => americanToDecimal odds.toInt
    | OddsType.fractional => fractionalToDecimal odds.toFrac
    | OddsType.implied => impliedProbabilityToDecimal odds.toFloat
  match result with
  | JSNum.fin q => if q < 101/100 then 101/100 else q
  | _ => 101/100

/-- `decimalToImpliedProbability` from `oddsConverter.js` (its argument is a
decimal odds value the code has already made finite, hence `ℚ`). -/
def decimalToImpliedProbability (decimal : ℚ) : ℚ :=
  if decimal < 101/100 then 0 else 1 / decimal * 100

/-- The floor of `convertToDecimal`: whatever the input parses to, the final
guard yields at least `1.01`. -/
theorem convertToDecimal_lower (odds : ParsedInput) (type : OddsType) :
    101/100 ≤ convertToDecimal odds type := by
  unfold convertToDecimal
  cases h : (match type with
    | OddsType.decimal => odds.toFloat
    | OddsType.american => americanToDecimal odds.toInt
    | OddsType.fractional => fractionalToDecimal odds.toFrac
    | OddsType.implied => impliedProbabilityToDecimal odds.toFloat) with
  | fin q => simp only [h]; split <;> simp_all
  | nan => simp [h]
  | posInf => simp [h]
  | negInf => simp [h]

/-- `convertToDecimal` exceeds `1`. -/
theorem one_lt_convertToDecimal (odds : ParsedInput) (type : OddsType) :
    1 < convertToDecimal odds type :=
  lt_of_lt_of_le (by norm_num) (convertToDecimal_lower odds type)

/-- C1. `toDecimal` (`convertToDecimal`) is total: for every input value
(any string or number, represented by the universally quantified triple of
its parse results) and each of the four odds types, it never raises (it is a
total function into `ℚ`, so every path yields a value) and the value it
returns is a finite number at least `1.01`. -/
theorem convertToDecimal_total_ge_floor (odds : ParsedInput) (type : OddsType) :
    101/100 ≤ convertToDecimal odds type :=
  convertToDecimal_lower odds type

/-- `calculatePayout` from `oddsConverter.js`. -/
structure Payout where
  stake : ℚ
  profit : ℚ
  totalReturn : ℚ
  odds : ℚ
deriving DecidableEq, Repr

/-- `calculatePayout(stake, decimalOdds)` from `oddsConverter.js`. -/
def calculatePayout (stake decimalOdds : ℚ) : Payout :=
  let totalReturn := stake * decimalOdds
  let profit := totalReturn - stake
  { stake := stake, profit := profit, totalReturn := totalReturn, odds := decimalOdds }

/-- The configuration object passed to `calculateMartingaleProgression`
(`martingaleCalculator.js`, destructured with defaults `maxRounds = 20`,
`targetProfit = null`, `betMultiplier = 2`, `maxTableLimit = null`).
`baseBet`, `bankroll`, `maxRounds` and `betMultiplier` are JS numbers the
code validates or uses arithmetically; they are modelled as `ℚ` (the
`typeof`/`isFinite` checks are absorbed by the type). `odds` carries the
parse results of the raw odds value. -/
structure Config where
  baseBet : ℚ
  bankroll : ℚ
  odds : ParsedInput
  oddsType : OddsType
  maxRounds : ℚ := 20
  targetProfit : Option ℚ := none
  betMultiplier : ℚ := 2
  maxTableLimit : Option ℚ := none
deriving DecidableEq, Repr

/-- One row of the progression table pushed by the loop in
`calculateMartingaleProgression`. -/
structure Round where
  round : ℕ
  betAmount : ℚ
  cumulativeLoss : ℚ
  totalWagered : ℚ
  potentialWin : ℚ
  netProfitIfWin : ℚ
  totalReturnIfWin : ℚ
  remainingBankroll : ℚ
  breakeven : Bool
  targetMet : Bool
deriving DecidableEq, Repr

/-- JS truthiness for an optional numeric field (`null` and `0` are falsy):
`targetProfit ? ... : ...` and `maxTableLimit && ...` in the source. -/
def truthyOpt (o : Option ℚ) : Option ℚ :=
  match o with
  | none => none
  | some q => if q = 0 then none else some q

/-- The `maxTableLimit && currentBet > maxTableLimit` break condition. -/
def tableLimitHit (maxTableLimit : Option ℚ) (currentBet : ℚ) : Bool :=
  match truthyOpt maxTableLimit with
  | some l => decide (l < currentBet)
  | none => false

/-- The `targetProfit && netProfitIfWin >= targetProfit` break condition. -/
def targetReached (targetProfit : Option ℚ) (netProfitIfWin : ℚ) : Bool :=
  match truthyOpt targetProfit with
  | some t => decide (t ≤ netProfitIfWin)
  | none => false

/-- The `while (round <= maxRounds)` loop of
`calculateMartingaleProgression`, written as structural recursion on the
number of remaining permitted rounds (`fuel`); the caller passes
`fuel = ⌊maxRounds⌋₊`, which is exactly the number of integers `round` with
`1 ≤ round ≤ maxRounds`, so the encoding matches the source loop bound.
State threaded through the loop: `round`, `currentBet`, `totalLoss`,
`totalWagered`, `remainingBankroll`, exactly the source's mutable locals. -/
def progressionLoop (decimalOdds betMultiplier : ℚ)
    (targetProfit maxTableLimit : Option ℚ) :
    ℕ → ℕ → ℚ → ℚ → ℚ → ℚ → List Round
  | 0, _, _, _, _, _ => []
  | fuel + 1, round, currentBet, totalLoss, totalWagered, remainingBankroll =>
    if remainingBankroll < currentBet then []
    else if tableLimitHit maxTableLimit currentBet then []
    else
      let payout := calculatePayout currentBet decimalOdds
      let totalWagered2 := totalWagered + currentBet
      let totalLoss2 := totalLoss + currentBet
      let remainingBankroll2 := remainingBankroll - currentBet
      let netProfitIfWin := payout.profit - (totalLoss2 - currentBet)
      let r : Round :=
        { round := round
          betAmount := currentBet
          cumulativeLoss := totalLoss2 - currentBet
          totalWagered := totalWagered2
          potentialWin := payout.profit
          netProfitIfWin := netProfitIfWin
          totalReturnIfWin := payout.totalReturn
          remainingBankroll := remainingBankroll2
          breakeven := decide (0 ≤ netProfitIfWin)
          targetMet :=
            match truthyOpt targetProfit with
            | some t => decide (t ≤ netProfitIfWin)
            | none => decide (0 < netProfitIfWin) }
      if targetReached targetProfit netProfitIfWin then [r]
      else
        r :: progressionLoop decimalOdds betMultiplier targetProfit maxTableLimit
          fuel (round + 1) (currentBet * betMultiplier) totalLoss2 totalWagered2
          remainingBankroll2

/-- `calculateRiskOfRuin` from `martingaleCalculator.js`. The
`!isFinite(q_p)` part of the source guard is vacuous over `ℚ` and is
dropped; for valid inputs `bankroll/unitSize > 0`, so `Math.floor` is the
natural-number floor. -/
def calculateRiskOfRuin (bankroll unitSize winProbability : ℚ) : ℚ :=
  if bankroll ≤ 0 ∨ unitSize ≤ 0 ∨ winProbability ≤ 0 ∨ 1 ≤ winProbability then 1
  else
    let units : ℕ := ⌊bankroll / unitSize⌋₊
    let lossProbability := 1 - winProbability
    if winProbability = 1/2 then 1
    else
      let qp := lossProbability / winProbability
      if qp = 1 then 1
      else if qp ≤ 0 then 1
      else min (max (qp ^ units) 0) 1

/-- `calculateKellyCriterion` from `martingaleCalculator.js` (the
`!isFinite(kelly) || isNaN(kelly)` guard is vacuous over `ℚ`). -/
def calculateKellyCriterion (decimalOdds winProbability : ℚ) : ℚ :=
  if decimalOdds ≤ 1 ∨ winProbability ≤ 0 ∨ 1 ≤ winProbability then 0
  else
    let b := decimalOdds - 1
    let p := winProbability
    let q := 1 - winProbability
    let kelly := (b * p - q) / b
    max 0 (min kelly 1)

/-- The argument object of `calculateStatistics`. -/
structure StatsArgs where
  progression : List Round
  winProbability : ℚ
  lossProbability : ℚ
  bankroll : ℚ
  baseBet : ℚ
  decimalOdds : ℚ
  maxRounds : ℚ
deriving DecidableEq, Repr

/-- The statistics record returned by `calculateStatistics`. -/
structure Statistics where
  maxPossibleRounds : ℕ
  bustProbability : ℚ
  winProbabilityAtLeastOnce : ℚ
  expectedValue : ℚ
  riskOfRuin : ℚ
  maxDrawdown : ℚ
  kellyCriterion : ℚ
  recommendedBankroll : ℚ
  averageProfit : ℚ
  worstCaseScenario : ℚ
deriving DecidableEq, Repr

/-- `calculateStatistics` from `martingaleCalculator.js`. The
`progression[progression.length - 1]` access is `undefined` on an empty
progression and every use of it is guarded by the source (`lastRound ? _ : _`
or an explicit check), modelled with `List.getLast?`; the NaN/finiteness
guards on `expectedValue` are vacuous over `ℚ`. -/
def calculateStatistics (s : StatsArgs) : Statistics :=
  let lastRound := s.progression.getLast?
  let maxPossibleRounds := s.progression.length
  let bust := s.lossProbability ^ maxPossibleRounds
  let winAtLeastOnce := 1 - bust
  let ev0 := (List.range maxPossibleRounds).foldl
    (fun acc i =>
      match s.progression.get? i with
      | some roundData =>
          acc + s.lossProbability ^ i * s.winProbability * roundData.netProfitIfWin
      | none => acc) 0
  let expectedValue :=
    match lastRound with
    | some lr => ev0 + bust * (-lr.totalWagered)
    | none => ev0
  let riskOfRuin := calculateRiskOfRuin s.bankroll s.baseBet s.winProbability
  let maxDrawdown := match lastRound with | some lr => lr.totalWagered | none => 0
  let kellyCriterion := calculateKellyCriterion s.decimalOdds s.winProbability
  { maxPossibleRounds := maxPossibleRounds
    bustProbability := bust * 100
    winProbabilityAtLeastOnce := winAtLeastOnce * 100
    expectedValue := expectedValue
    riskOfRuin := riskOfRuin * 100
    maxDrawdown := maxDrawdown
    kellyCriterion := kellyCriterion * 100
    recommendedBankroll := s.baseBet * 20
    averageProfit := match lastRound with | some lr => lr.netProfitIfWin | none => 0
    worstCaseScenario := match lastRound with | some lr => -lr.totalWagered | none => 0 }

/-- The `{...config, decimalOdds, winProbability, lossProbability}` echo in
the result of `calculateMartingaleProgression` (spread modelled by keeping
the source configuration alongside the three added fields). -/
structure ResultConfig where
  source : Config
  decimalOdds : ℚ
  winProbability : ℚ
  lossProbability : ℚ
deriving DecidableEq, Repr

/-- The result object of `calculateMartingaleProgression`. -/
structure ProgressionResult where
  progression : List Round
  statistics : Statistics
  config : ResultConfig
deriving DecidableEq, Repr

/-- `calculateMartingaleProgression` from `martingaleCalculator.js`
(`buildProgression` in the specification). The `typeof`/`isFinite` parts of
the validation are absorbed by the `ℚ` typing of the fields; the
`oddsType` membership check is absorbed by the `OddsType` enumeration. -/
def calculateMartingaleProgression (config : Config) : Except JsErr ProgressionResult :=
  if config.baseBet ≤ 0 then .error (.error "Base bet must be a positive number")
  else if config.bankroll ≤ 0 then .error (.error "Bankroll must be a positive number")
  else
    let decimalOdds := convertToDecimal config.odds config.oddsType
    if decimalOdds ≤ 1 then .error (.error "Invalid odds - must be greater than 1.00")
    else
      let winProbability := decimalToImpliedProbability decimalOdds / 100
      let lossProbability := 1 - winProbability
      if winProbability ≤ 0 ∨ 1 ≤ winProbability then
        .error (.error "Invalid probability calculation")
      else
        let progression := progressionLoop decimalOdds config.betMultiplier
          config.targetProfit config.maxTableLimit ⌊config.maxRounds⌋₊ 1
          config.baseBet 0 0 config.bankroll
        let statistics := calculateStatistics
          { progression := progression
            winProbability := winProbability
            lossProbability := lossProbability
            bankroll := config.bankroll
            baseBet := config.baseBet
            decimalOdds := decimalOdds
            maxRounds := config.maxRounds }
        .ok
          { progression := progression
            statistics := statistics
            config :=
              { source := config
                decimalOdds := decimalOdds
                winProbability := winProbability * 100
                lossProbability := lossProbability * 100 } }

/-- One simulated session's record (`simulateSingleSession` return value). -/
structure TrialResult where
  won : Bool
  roundsPlayed : ℕ
  profit : ℚ
  totalWagered : ℚ
deriving DecidableEq, Repr

/-- The `for (let i = 0; i < progression.length; i++)` scan of
`simulateSingleSession`: walk the progression in round order drawing
`randRow i` for index `i`; return the first winning index and its round,
if any. `randRow` is the injected uniform source (`Math.random()`), one
value per round index. -/
def sessionLoop (winProbability : ℚ) (randRow : ℕ → ℚ) :
    List Round → ℕ → Option (ℕ × Round)
  | [], _ => none
  | rd :: rest, i =>
      if randRow i < winProbability then some (i, rd)
      else sessionLoop winProbability randRow rest (i + 1)

/-- The body of `simulateSingleSession` after the progression has been
derived: win on the first round whose draw falls below `winProbability`;
otherwise the all-loss branch reads
`progression[progression.length - 1].totalWagered`, which on an empty
progression is a property access on `undefined` — a `TypeError`. -/
def sessionFromProgression (progression : List Round) (winProbability : ℚ)
    (randRow : ℕ → ℚ) : Except JsErr TrialResult :=
  match sessionLoop winProbability randRow progression 0 with
  | some (i, rd) =>
      .ok { won := true, roundsPlayed := i + 1, profit := rd.netProfitIfWin,
            totalWagered := rd.totalWagered }
  | none =>
      match progression.getLast? with
      | some lastRound =>
          .ok { won := false, roundsPlayed := progression.length,
                profit := -lastRound.totalWagered,
                totalWagered := lastRound.totalWagered }
      | none => .error (.typeError "Cannot read properties of undefined")

/-- `simulateSingleSession` from `martingaleCalculator.js`: it re-derives the
progression with its own call `calculateMartingaleProgression(config)` and
then scans it. -/
def simulateSingleSession (config : Config) (winProbability : ℚ)
    (randRow : ℕ → ℚ) : Except JsErr TrialResult :=
  match calculateMartingaleProgression config with
  | .error e => .error e
  | .ok res => sessionFromProgression res.progression winProbability randRow

/-- The `for (let session = 0; session < numSessions; session++)` loop of
`simulateMartingaleSessions`: run `count` sessions starting at index
`session`, collecting the results; an exception in any session aborts the
loop. `rand session` is the row of uniform draws consumed by that session. -/
def runTrials (config : Config) (winProbability : ℚ) (rand : ℕ → ℕ → ℚ) :
    ℕ → ℕ → Except JsErr (List TrialResult)
  | 0, _ => .ok []
  | count + 1, session =>
      match simulateSingleSession config winProbability (rand session) with
      | .error e => .error e
      | .ok t =>
          match runTrials config winProbability rand count (session + 1) with
          | .error e => .error e
          | .ok rest => .ok (t :: rest)

/-- The `summary` object of `simulateMartingaleSessions`. -/
structure SimSummary where
  totalSessions : ℚ
  wins : ℕ
  losses : ℕ
  winRate : ℚ
  averageProfit : ℚ
  maxProfit : ℚ
  maxLoss : ℚ
  profitableSessions : ℕ
deriving DecidableEq, Repr

/-- The `{results, summary}` object returned by
`simulateMartingaleSessions`. -/
structure SimOutput where
  results : List TrialResult
  summary : SimSummary
deriving DecidableEq, Repr

/-- `simulateMartingaleSessions` from `martingaleCalculator.js`. The
`typeof`/`isFinite` parts of the `numSessions` guard are absorbed by the `ℚ`
typing; the loop running `session = 0, 1, ...` while `session < numSessions`
executes exactly `⌈numSessions⌉₊` iterations. `Math.max(...profits)` /
`Math.min(...profits)` are folds over the (provably nonempty, since
`numSessions > 0`) profit list; the empty case, where the JS spread would
yield `-Infinity`/`Infinity`, is unreachable and mapped to `0`. -/
def simulateMartingaleSessions (config : Config) (numSessions : ℚ)
    (rand : ℕ → ℕ → ℚ) : Except JsErr SimOutput :=
  if numSessions ≤ 0 ∨ 100000 < numSessions then
    .error (.error "Number of sessions must be between 1 and 100,000")
  else
    match calculateMartingaleProgression config with
    | .error e => .error e
    | .ok progressionResults =>
      let decimalOdds := progressionResults.config.decimalOdds
      let winProbability := decimalToImpliedProbability decimalOdds / 100
      if winProbability ≤ 0 ∨ 1 < winProbability then
        .error (.error "Invalid win probability for simulation")
      else
        match runTrials config winProbability rand ⌈numSessions⌉₊ 0 with
        | .error e => .error e
        | .ok results =>
          let profits := results.map (fun r => r.profit)
          let wins := (results.filter (fun r => r.won)).length
          let losses := (results.filter (fun r => !r.won)).length
          .ok
            { results := results
              summary :=
                { totalSessions := numSessions
                  wins := wins
                  losses := losses
                  winRate := ((wins : ℚ) / numSessions) * 100
                  averageProfit := (profits.foldl (fun a b => a + b) 0) / numSessions
                  maxProfit := match profits with | [] => 0 | h :: t => t.foldl max h
                  maxLoss := match profits with | [] => 0 | h :: t => t.foldl min h
                  profitableSessions := (results.filter (fun r => 0 < r.profit)).length } }

/-- `simulateSingleSession`, instrumented: alongside the result, the second
component counts the `calculateMartingaleProgression` invocations the call
performs (the source calls it exactly once, at its first line). -/
def simulateSingleSessionCounted (config : Config) (winProbability : ℚ)
    (randRow : ℕ → ℚ) : Except JsErr TrialResult × ℕ :=
  (simulateSingleSession config winProbability randRow, 1)

/-- The trial loop, instrumented: accumulates the
`calculateMartingaleProgression` invocation counts of the sessions it runs. -/
def runTrialsCounted (config : Config) (winProbability : ℚ) (rand : ℕ → ℕ → ℚ) :
    ℕ → ℕ → Except JsErr (List TrialResult) × ℕ
  | 0, _ => (.ok [], 0)
  | count + 1, session =>
      let (r, c) := simulateSingleSessionCounted config winProbability (rand session)
      match r with
      | .error e => (.error e, c)
      | .ok t =>
          let (rest, c') := runTrialsCounted config winProbability rand count (session + 1)
          match rest with
          | .error e => (.error e, c + c')
          | .ok l => (.ok (t :: l), c + c')

/-- `simulateMartingaleSessions`, instrumented: the second component counts
every `calculateMartingaleProgression` invocation performed during the call
(the one at the top of `simulateMartingaleSessions` plus one per simulated
session inside `simulateSingleSession`). -/
def simulateMartingaleSessionsCounted (config : Config) (numSessions : ℚ)
    (rand : ℕ → ℕ → ℚ) : Except JsErr SimOutput × ℕ :=
  if numSessions ≤ 0 ∨ 100000 < numSessions then
    (.error (.error "Number of sessions must be between 1 and 100,000"), 0)
  else
    match calculateMartingaleProgression config with
    | .error e => (.error e, 1)
    | .ok progressionResults =>
      let decimalOdds := progressionResults.config.decimalOdds
      let winProbability := decimalToImpliedProbability decimalOdds / 100
      if winProbability ≤ 0 ∨ 1 < winProbability then
        (.error (.error "Invalid win probability for simulation"), 1)
      else
        let (res, c) := runTrialsCounted config winProbability rand ⌈numSessions⌉₊ 0
        match res with
        | .error e => (.error e, 1 + c)
        | .ok results =>
          let profits := results.map (fun r => r.profit)
          let wins := (results.filter (fun r => r.won)).length
          let losses := (results.filter (fun r => !r.won)).length
          (.ok
            { results := results
              summary :=
                { totalSessions := numSessions
                  wins := wins
                  losses := losses
                  winRate := ((wins : ℚ) / numSessions) * 100
                  averageProfit := (profits.foldl (fun a b => a + b) 0) / numSessions
                  maxProfit := match profits with | [] => 0 | h :: t => t.foldl max h
                  maxLoss := match profits with | [] => 0 | h :: t => t.foldl min h
                  profitableSessions := (results.filter (fun r => 0 < r.profit)).length } },
            1 + c)

/-- On a valid decimal odds value the implied probability is `1/d × 100`. -/
lemma decimalToImpliedProbability_of_ge (d : ℚ) (h : 101/100 ≤ d) :
    decimalToImpliedProbability d = 1 / d * 100 :=
  if_neg (not_lt.mpr h)

/-- The win probability computed by `calculateMartingaleProgression` is
`1/d` for the (always `≥ 1.01`) normalized odds `d`. -/
lemma winProbability_eq (d : ℚ) (h : 101/100 ≤ d) :
    decimalToImpliedProbability d / 100 = 1 / d := by
  rw [decimalToImpliedProbability_of_ge d h]
  field_simp
  ring

/-- For positive `baseBet` and `bankroll` every validation in
`calculateMartingaleProgression` passes (the normalized odds are always
`> 1`, so the probability is always strictly inside `(0,1)`), and the
function returns the progression produced by the loop together with the
normalized odds in the configuration echo. -/
lemma calcProg_ok_spec (config : Config) (h1 : 0 < config.baseBet)
    (h2 : 0 < config.bankroll) :
    ∃ res, calculateMartingaleProgression config = .ok res ∧
      res.progression = progressionLoop (convertToDecimal config.odds config.oddsType)
        config.betMultiplier config.targetProfit config.maxTableLimit
        ⌊config.maxRounds⌋₊ 1 config.baseBet 0 0 config.bankroll ∧
      res.config.decimalOdds = convertToDecimal config.odds config.oddsType := by
  have hd := convertToDecimal_lower config.odds config.oddsType
  have hd0 : (0:ℚ) < convertToDecimal config.odds config.oddsType := by linarith
  have hA : ¬ config.baseBet ≤ 0 := not_le.mpr h1
  have hB : ¬ config.bankroll ≤ 0 := not_le.mpr h2
  have hC : ¬ convertToDecimal config.odds config.oddsType ≤ 1 :=
    not_le.mpr (one_lt_convertToDecimal _ _)
  have hwp := winProbability_eq _ hd
  have hD : ¬ (decimalToImpliedProbability (convertToDecimal config.odds config.oddsType) / 100 ≤ 0 ∨
      1 ≤ decimalToImpliedProbability (convertToDecimal config.odds config.oddsType) / 100) := by
    rw [hwp]
    push_neg
    constructor
    · positivity
    · rw [div_lt_one hd0]
      linarith [one_lt_convertToDecimal config.odds config.oddsType]
  simp only [calculateMartingaleProgression, hA, hB, hC, hD, if_false, ite_false]
  exact ⟨_, rfl, rfl, rfl⟩

/-- The loop emits at most `fuel` rounds. -/
lemma progressionLoop_length_le (d m : ℚ) (tp mtl : Option ℚ) :
    ∀ (fuel round : ℕ) (bet tl tw rb : ℚ),
      (progressionLoop d m tp mtl fuel round bet tl tw rb).length ≤ fuel := by
  intro fuel
  induction fuel with
  | zero => intro round bet tl tw rb; simp [progressionLoop]
  | succ n ih =>
    intro round bet tl tw rb
    simp only [progressionLoop]
    split
    · simp
    · split
      · simp
      · split
        · simp
        · simpa using Nat.succ_le_succ (ih (round + 1) _ _ _ _)

/-- If the very first bet is unaffordable the loop emits nothing. -/
lemma progressionLoop_nil_of_insufficient (d m : ℚ) (tp mtl : Option ℚ)
    (fuel round : ℕ) (bet tl tw rb : ℚ) (h : rb < bet) :
    progressionLoop d m tp mtl fuel round bet tl tw rb = [] := by
  cases fuel with
  | zero => simp [progressionLoop]
  | succ n => simp [progressionLoop, if_pos h]

/-- Everything the loop emits is at least as aggressive as its entry state:
the bet at least the entry bet, the cumulative loss at least the entry loss,
the total wagered at least the entry total plus the entry bet, the remaining
bankroll at most the entry bankroll minus the entry bet. -/
lemma progressionLoop_mem_bounds (d m : ℚ) (tp mtl : Option ℚ) (hm : 1 ≤ m) :
    ∀ (fuel round : ℕ) (bet tl tw rb : ℚ), 0 < bet →
      ∀ x ∈ progressionLoop d m tp mtl fuel round bet tl tw rb,
        bet ≤ x.betAmount ∧ tl ≤ x.cumulativeLoss ∧ tw + bet ≤ x.totalWagered ∧
          x.remainingBankroll ≤ rb - bet := by
  intro fuel
  induction fuel with
  | zero => intro round bet tl tw rb hbet x hx; simp [progressionLoop] at hx
  | succ n ih =>
    intro round bet tl tw rb hbet x hx
    simp only [progressionLoop] at hx
    split at hx
    · simp at hx
    · split at hx
      · simp at hx
      · split at hx
        · rw [List.mem_singleton] at hx
          subst hx
          dsimp only
          refine ⟨le_refl _, by linarith, le_refl _, le_refl _⟩
        · rcases List.mem_cons.mp hx with hx | hx
          · subst hx
            dsimp only
            refine ⟨le_refl _, by linarith, le_refl _, le_refl _⟩
          · have hbm : 0 < bet * m := mul_pos hbet (lt_of_lt_of_le one_pos hm)
            have hle : bet ≤ bet * m := le_mul_of_one_le_right hbet.le hm
            obtain ⟨b1, b2, b3, b4⟩ := ih (round + 1) (bet * m) (tl + bet) (tw + bet) (rb - bet) hbm x hx
            refine ⟨by linarith, by linarith, by linarith, by linarith⟩

/-- The strict monotonicity relation between two rounds in C6. -/
def roundMono (a b : Round) : Prop :=
  a.betAmount < b.betAmount ∧ a.cumulativeLoss ≤ b.cumulativeLoss ∧
    a.totalWagered ≤ b.totalWagered ∧ b.remainingBankroll ≤ a.remainingBankroll

/-- With a multiplier `> 1` the emitted list is pairwise `roundMono`. -/
lemma progressionLoop_pairwise (d m : ℚ) (tp mtl : Option ℚ) (hm : 1 < m) :
    ∀ (fuel round : ℕ) (bet tl tw rb : ℚ), 0 < bet →
      List.Pairwise roundMono (progressionLoop d m tp mtl fuel round bet tl tw rb) := by
  intro fuel
  induction fuel with
  | zero => intro round bet tl tw rb hbet; simp [progressionLoop]
  | succ n ih =>
    intro round bet tl tw rb hbet
    simp only [progressionLoop]
    split
    · simp
    · split
      · simp
      · split
        · simp
        · refine List.Pairwise.cons ?_ (ih (round + 1) (bet * m) (tl + bet) (tw + bet) (rb - bet)
            (mul_pos hbet (lt_of_lt_of_le one_pos hm.le)))
          intro x hx
          have hbm : bet < bet * m := (lt_mul_iff_one_lt_right hbet).mpr hm
          obtain ⟨b1, b2, b3, b4⟩ := progressionLoop_mem_bounds d m tp mtl hm.le n
            (round + 1) (bet * m) (tl + bet) (tw + bet) (rb - bet)
            (mul_pos hbet (lt_of_lt_of_le one_pos hm.le)) x hx
          unfold roundMono
          dsimp only
          exact ⟨by linarith, by linarith, by linarith, by linarith⟩

/-- C4. For every valid configuration (positive `baseBet` and `bankroll` —
finiteness is the `ℚ` typing — `maxRounds` a positive integer,
`betMultiplier ≥ 1`), `buildProgression` (`calculateMartingaleProgression`)
terminates with a result (the loop is total by the explicit
`⌊maxRounds⌋₊` bound) whose round sequence has length at most `maxRounds`;
and if the very first bet exceeds the bankroll it returns an empty round
sequence rather than raising an error. -/
theorem buildProgression_terminates_bounded (config : Config) (k : ℕ)
    (h1 : 0 < config.baseBet) (h2 : 0 < config.bankroll)
    (hk : config.maxRounds = (k : ℚ)) (hkpos : 0 < k)
    (hm : 1 ≤ config.betMultiplier) :
    ∃ res, calculateMartingaleProgression config = .ok res ∧
      res.progression.length ≤ k ∧
      (config.bankroll < config.baseBet → res.progression = []) := by
  obtain ⟨res, hok, hprog, _⟩ := calcProg_ok_spec config h1 h2
  refine ⟨res, hok, ?_, ?_⟩
  · rw [hprog, hk]
    simpa [Nat.floor_natCast] using progressionLoop_length_le
      (convertToDecimal config.odds config.oddsType) config.betMultiplier
      config.targetProfit config.maxTableLimit ⌊(k : ℚ)⌋₊ 1
      config.baseBet 0 0 config.bankroll
  · intro hlt
    rw [hprog]
    exact progressionLoop_nil_of_insufficient _ _ _ _ _ _ _ _ _ _ hlt

/-- Witness for C4 at the concrete configuration
`baseBet = 20, bankroll = 10, odds "2.00" decimal, maxRounds = 10,
betMultiplier = 2`: the call succeeds, the length bound holds, and since
the first bet 20 exceeds the bankroll 10 the progression is empty. -/
theorem buildProgression_terminates_bounded_witness :
    ∃ res, calculateMartingaleProgression
        ⟨20, 10, ⟨.fin 2, .fin 2, some (.fin 2, .nan)⟩, .decimal, 10, none, 2, none⟩ = .ok res ∧
      res.progression.length ≤ 10 ∧
      ((10:ℚ) < 20 → res.progression = []) :=
  buildProgression_terminates_bounded
    ⟨20, 10, ⟨.fin 2, .fin 2, some (.fin 2, .nan)⟩, .decimal, 10, none, 2, none⟩ 10
    (by norm_num) (by norm_num) (by norm_num) (by norm_num) (by norm_num)

set_option maxRecDepth 100000 in
/-- C5. With `baseBet = 10, bankroll = 1000, 2.00 decimal odds,
maxRounds = 10, betMultiplier = 2`, `buildProgression` emits bets
`10, 20, 40, 80, 160, 320` (round 1 bet 10, round 2 bet 20, round 3 bet 40,
doubling each emitted round until the next doubled bet would exceed the
remaining bankroll), and `netProfitIfWin` equals `10` on every emitted
round. -/
theorem progression_scenario_doubling :
    ∃ res, calculateMartingaleProgression
        ⟨10, 1000, ⟨.fin 2, .fin 2, some (.fin 2, .nan)⟩, .decimal, 10, none, 2, none⟩ = .ok res ∧
      res.progression.map (fun r => r.betAmount) = [10, 20, 40, 80, 160, 320] ∧
      ∀ r ∈ res.progression, r.netProfitIfWin = 10 := by
  refine ⟨(calculateMartingaleProgression
      ⟨10, 1000, ⟨.fin 2, .fin 2, some (.fin 2, .nan)⟩, .decimal, 10, none, 2, none⟩).toOption.get
      (by with_unfolding_all decide), ?_, ?_, ?_⟩ <;> with_unfolding_all decide

/-- C6. For every configuration accepted by `buildProgression` with
`betMultiplier > 1`, in the returned round sequence `betAmount` is strictly
increasing, `cumulativeLoss` and `totalWagered` are non-decreasing, and
`remainingBankroll` is non-increasing, between every pair of rounds in
order (`List.Pairwise roundMono`). -/
theorem progression_monotone (config : Config) (res : ProgressionResult)
    (hok : calculateMartingaleProgression config = .ok res)
    (hm : 1 < config.betMultiplier) :
    List.Pairwise roundMono res.progression := by
  have h1 : 0 < config.baseBet := by
    by_contra h
    push_neg at h
    simp [calculateMartingaleProgression, if_pos h] at hok
  have h2 : 0 < config.bankroll := by
    by_contra h
    push_neg at h
    simp [calculateMartingaleProgression, if_pos h, not_le.mpr h1] at hok
  obtain ⟨res2, hok2, hprog2, _⟩ := calcProg_ok_spec config h1 h2
  rw [hok] at hok2
  injection hok2 with hres
  subst hres
  rw [hprog2]
  exact progressionLoop_pairwise _ _ _ _ hm _ _ _ _ _ _ h1

set_option maxRecDepth 100000 in
/-- Witness for C6: the concrete doubling configuration of scenario 1 is
accepted and its six-round progression is pairwise `roundMono`. -/
theorem progression_monotone_witness :
    List.Pairwise roundMono ((calculateMartingaleProgression
      ⟨10, 1000, ⟨.fin 2, .fin 2, some (.fin 2, .nan)⟩, .decimal, 12, none, 2, none⟩).toOption.get
      (by with_unfolding_all decide)).progression :=
  progression_monotone
    ⟨10, 1000, ⟨.fin 2, .fin 2, some (.fin 2, .nan)⟩, .decimal, 12, none, 2, none⟩ _
    (by with_unfolding_all decide) (by norm_num)

/-- Any of the claimed degenerate conditions sends `calculateRiskOfRuin`
into one of its early `return 1` branches. -/
lemma calculateRiskOfRuin_eq_one (b u p : ℚ)
    (h : p = 1/2 ∨ b ≤ 0 ∨ u ≤ 0 ∨ p ≤ 0 ∨ 1 ≤ p) :
    calculateRiskOfRuin b u p = 1 := by
  simp only [calculateRiskOfRuin]
  split_ifs with hA hB hC hD
  · rfl
  · rfl
  · rfl
  · rfl
  · exfalso
    push_neg at hA
    obtain ⟨hb, hu, hp0, hp1⟩ := hA
    rcases h with h | h | h | h | h
    · exact hB h
    · linarith
    · linarith
    · linarith
    · linarith

/-- In the generic case `calculateRiskOfRuin` is the clamped gambler's-ruin
power. -/
lemma calculateRiskOfRuin_formula (b u p : ℚ) (h0 : 0 < p) (h1 : p < 1)
    (hne : p ≠ 1/2) (hb : 0 < b) (hu : 0 < u) :
    calculateRiskOfRuin b u p = min (max (((1 - p) / p) ^ ⌊b / u⌋₊) 0) 1 := by
  have hq1 : ¬ ((1 - p) / p = 1) := by
    intro hq
    apply hne
    rw [div_eq_one_iff_eq (ne_of_gt h0)] at hq
    linarith
  have hq0 : ¬ ((1 - p) / p ≤ 0) := not_le.mpr (div_pos (by linarith) h0)
  have hA : ¬ (b ≤ 0 ∨ u ≤ 0 ∨ p ≤ 0 ∨ 1 ≤ p) := by
    push_neg
    exact ⟨hb, hu, h0, h1⟩
  simp only [calculateRiskOfRuin]
  rw [if_neg hA, if_neg hne, if_neg hq1, if_neg hq0]

/-- The `riskOfRuin` field of the statistics is the risk-of-ruin value
scaled to a percentage. -/
lemma calculateStatistics_riskOfRuin (s : StatsArgs) :
    (calculateStatistics s).riskOfRuin =
      calculateRiskOfRuin s.bankroll s.baseBet s.winProbability * 100 := rfl

/-- C7. `computeStatistics` (`calculateStatistics`) reports `riskOfRuin`,
as a percentage, equal to `100 × clamp(((1−p)/p)^⌊bankroll/baseBet⌋, 0, 1)`
whenever `0 < p < 1`, `p ≠ 0.5` and the inputs are positive (over `ℚ` the
ratio is automatically finite and positive there, matching the claim's
proviso); and it reports `100` (certain ruin) when `p = 0.5`, when
`bankroll ≤ 0` or `baseBet ≤ 0`, or when `p` is outside `(0,1)` (the
non-finite-ratio case of the claim cannot arise over `ℚ`). -/
theorem riskOfRuin_gamblers_ruin (s : StatsArgs) :
    (0 < s.winProbability → s.winProbability < 1 → s.winProbability ≠ 1/2 →
      0 < s.bankroll → 0 < s.baseBet →
      (calculateStatistics s).riskOfRuin =
        100 * min (max (((1 - s.winProbability) / s.winProbability) ^
          ⌊s.bankroll / s.baseBet⌋₊) 0) 1) ∧
    ((s.winProbability = 1/2 ∨ s.bankroll ≤ 0 ∨ s.baseBet ≤ 0 ∨
      s.winProbability ≤ 0 ∨ 1 ≤ s.winProbability) →
      (calculateStatistics s).riskOfRuin = 100) := by
  constructor
  · intro h0 h1 hne hb hu
    rw [calculateStatistics_riskOfRuin, calculateRiskOfRuin_formula _ _ _ h0 h1 hne hb hu]
    ring
  · intro h
    rw [calculateStatistics_riskOfRuin, calculateRiskOfRuin_eq_one _ _ _ h]
    norm_num

/-- Witness for C7: at `p = 1/3, bankroll = 100, baseBet = 10` the formula
branch applies; at `p = 1/2` the certain-ruin branch applies. -/
theorem riskOfRuin_gamblers_ruin_witness :
    (calculateStatistics ⟨[], 1/3, 2/3, 100, 10, 3, 20⟩).riskOfRuin =
      100 * min (max (((1 - (1:ℚ)/3) / ((1:ℚ)/3)) ^ ⌊(100:ℚ) / 10⌋₊) 0) 1 ∧
    (calculateStatistics ⟨[], 1/2, 1/2, 100, 10, 2, 20⟩).riskOfRuin = 100 :=
  ⟨(riskOfRuin_gamblers_ruin ⟨[], 1/3, 2/3, 100, 10, 3, 20⟩).1
      (by norm_num) (by norm_num) (by norm_num) (by norm_num) (by norm_num),
    (riskOfRuin_gamblers_ruin ⟨[], 1/2, 1/2, 100, 10, 2, 20⟩).2 (Or.inl rfl)⟩

/-- C9. For every odds input (any parse results) and every recognized odds
type, `buildProgression` never raises its "Invalid odds - must be greater
than 1.00" error: the normalizer clamps every result to at least `1.01`, so
the `decimalOdds ≤ 1.00` rejection branch in
`calculateMartingaleProgression` is unreachable; malformed odds (e.g. a
decimal input parsing to `NaN`) are silently repaired to `1.01` rather than
rejected. -/
theorem invalidOdds_branch_unreachable (config : Config) :
    calculateMartingaleProgression config ≠
      .error (.error "Invalid odds - must be greater than 1.00") ∧
    (0 < config.baseBet → 0 < config.bankroll → config.odds.toFloat = .nan →
      config.oddsType = .decimal →
      ∃ res, calculateMartingaleProgression config = .ok res ∧
        res.config.decimalOdds = 101/100) := by
  constructor
  · intro hcontra
    have hC : ¬ convertToDecimal config.odds config.oddsType ≤ 1 :=
      not_le.mpr (one_lt_convertToDecimal _ _)
    simp only [calculateMartingaleProgression] at hcontra
    split_ifs at hcontra with hA hB hD
    · exact absurd hcontra (by decide)
    · exact absurd hcontra (by decide)
    · exact absurd hcontra (by decide)
  · intro h1 h2 hnan htype
    obtain ⟨res, hok, _, hdec⟩ := calcProg_ok_spec config h1 h2
    refine ⟨res, hok, ?_⟩
    rw [hdec, htype]
    simp [convertToDecimal, hnan]

/-- Witness for C9 at a malformed decimal input (`parseFloat` gives `NaN`):
the call succeeds with the repaired odds `1.01` and in particular is not the
invalid-odds error. -/
theorem invalidOdds_branch_unreachable_witness :
    calculateMartingaleProgression
        ⟨10, 1000, ⟨.nan, .nan, none⟩, .decimal, 10, none, 2, none⟩ ≠
      .error (.error "Invalid odds - must be greater than 1.00") ∧
    ∃ res, calculateMartingaleProgression
        ⟨10, 1000, ⟨.nan, .nan, none⟩, .decimal, 10, none, 2, none⟩ = .ok res ∧
      res.config.decimalOdds = 101/100 :=
  ⟨(invalidOdds_branch_unreachable _).1,
    (invalidOdds_branch_unreachable
      ⟨10, 1000, ⟨.nan, .nan, none⟩, .decimal, 10, none, 2, none⟩).2
      (by norm_num) (by norm_num) rfl rfl⟩

/-- When the (re-derived) progression is empty, `simulateSingleSession`
reaches its all-loss branch and reads `totalWagered` of
`progression[progression.length - 1] = undefined`: a `TypeError`. -/
lemma simulateSingleSession_typeError (config : Config) (res : ProgressionResult)
    (hok : calculateMartingaleProgression config = .ok res)
    (hempty : res.progression = []) (wp : ℚ) (row : ℕ → ℚ) :
    simulateSingleSession config wp row =
      .error (.typeError "Cannot read properties of undefined") := by
  unfold simulateSingleSession
  rw [hok]
  dsimp only
  rw [hempty]
  rfl

/-- A configuration whose very first bet (20) exceeds the bankroll (10):
`calculateMartingaleProgression` accepts it and returns an empty
progression. -/
def emptyProgressionConfig : Config :=
  { baseBet := 20, bankroll := 10,
    odds := ⟨.fin 2, .fin 2, some (.fin 2, .nan)⟩,
    oddsType := .decimal, maxRounds := 20,
    targetProfit := none, betMultiplier := 2, maxTableLimit := none }

/-- C10. For a configuration accepted by `buildProgression` whose
progression is empty (`baseBet = 20 > 10 = bankroll`, both positive), every
in-range `trialCount` makes `simulateMartingaleSessions` fail with a
`TypeError` (reading `totalWagered` of an undefined last round inside
`simulateSingleSession`) instead of returning a result or raising a
`ValidationError`. -/
theorem simulate_empty_progression_typeError (n : ℚ) (rand : ℕ → ℕ → ℚ)
    (h1 : 1 ≤ n) (h2 : n ≤ 100000) :
    simulateMartingaleSessions emptyProgressionConfig n rand =
      .error (.typeError "Cannot read properties of undefined") := by
  have hguard : ¬ (n ≤ 0 ∨ 100000 < n) := by
    push_neg
    constructor <;> linarith
  obtain ⟨res, hok, hprog, hdec⟩ :=
    calcProg_ok_spec emptyProgressionConfig (by norm_num [emptyProgressionConfig])
      (by norm_num [emptyProgressionConfig])
  have hempty : res.progression = [] := by
    rw [hprog]
    exact progressionLoop_nil_of_insufficient _ _ _ _ _ _ _ _ _ _
      (by norm_num [emptyProgressionConfig])
  have hctd : convertToDecimal emptyProgressionConfig.odds
      emptyProgressionConfig.oddsType = 2 := by
    with_unfolding_all decide
  have hwp : ¬ (decimalToImpliedProbability 2 / 100 ≤ 0 ∨
      1 < decimalToImpliedProbability 2 / 100) := by
    norm_num [decimalToImpliedProbability]
  obtain ⟨k, hk⟩ : ∃ k, ⌈n⌉₊ = k + 1 :=
    ⟨⌈n⌉₊ - 1, (Nat.succ_pred_eq_of_pos (Nat.ceil_pos.mpr (by linarith))).symm⟩
  have hrt : runTrials emptyProgressionConfig (decimalToImpliedProbability 2 / 100)
      rand (k + 1) 0 = .error (.typeError "Cannot read properties of undefined") := by
    unfold runTrials
    rw [simulateSingleSession_typeError emptyProgressionConfig res hok hempty _ (rand 0)]
  unfold simulateMartingaleSessions
  rw [if_neg hguard, hok]
  dsimp only
  rw [hdec, hctd, if_neg hwp, hk, hrt]

/-- Witness for C10 at `trialCount = 1` with the constant-zero random
source. -/
theorem simulate_empty_progression_typeError_witness :
    simulateMartingaleSessions emptyProgressionConfig 1 (fun _ _ => 0) =
      .error (.typeError "Cannot read properties of undefined") :=
  simulate_empty_progression_typeError 1 (fun _ _ => 0) (by norm_num) (by norm_num)

set_option maxRecDepth 400000 in
/-- C2. Evaluation of `simulateMartingaleSessions` against the claimed
error contract, at concrete inputs. First conjunct: for a configuration
accepted by `buildProgression` (`baseBet = 50 > 0`, `bankroll = 10 > 0`)
whose progression is empty, and the in-range `trialCount = 1`, the call
fails with a `TypeError` instead of returning `{trials, summary}` —
refuting "for every configuration accepted by buildProgression and every
trialCount in range, it returns trials and a summary without raising".
Second conjunct: `trialCount = 0.5`, which lies outside `[1, 100000]`, is
accepted by the guard (`numSessions <= 0 || numSessions > 100000`) and the
call returns normally — refuting the "raises exactly when trialCount is
outside [1,100000]" direction. -/
theorem simulateSessions_contract_evaluation :
    simulateMartingaleSessions
        ⟨50, 10, ⟨.fin 2, .fin 2, some (.fin 2, .nan)⟩, .decimal, 10, none, 2, none⟩
        1 (fun _ _ => 0) =
      .error (.typeError "Cannot read properties of undefined") ∧
    ∃ out, simulateMartingaleSessions
        ⟨10, 1000, ⟨.fin 2, .fin 2, some (.fin 2, .nan)⟩, .decimal, 10, none, 2, none⟩
        (1/2) (fun _ _ => 0) = .ok out := by
  constructor
  · with_unfolding_all decide
  · exact ⟨(simulateMartingaleSessions
      ⟨10, 1000, ⟨.fin 2, .fin 2, some (.fin 2, .nan)⟩, .decimal, 10, none, 2, none⟩
      (1/2) (fun _ _ => 0)).toOption.get (by with_unfolding_all decide),
      by with_unfolding_all decide⟩

set_option maxRecDepth 1000000 in
/-- C3. The progression is *not* derived once and shared across trials: the
instrumented simulator, which counts `calculateMartingaleProgression`
invocations at exactly the source's call sites, performs 3 derivations for
2 trials (one in `simulateMartingaleSessions` plus one per trial inside
`simulateSingleSession`) on the standard configuration, where the claim
requires a single shared derivation. The second conjunct shows the
re-derivations are extensionally harmless here: the instrumented run
returns the same value as the plain one (the per-trial tables equal the
shared table because the derivation is deterministic). -/
theorem progression_rederived_per_trial :
    (simulateMartingaleSessionsCounted
        ⟨10, 1000, ⟨.fin 2, .fin 2, some (.fin 2, .nan)⟩, .decimal, 10, none, 2, none⟩
        2 (fun _ _ => 1)).2 = 3 ∧
    (simulateMartingaleSessionsCounted
        ⟨10, 1000, ⟨.fin 2, .fin 2, some (.fin 2, .nan)⟩, .decimal, 10, none, 2, none⟩
        2 (fun _ _ => 1)).1 =
      simulateMartingaleSessions
        ⟨10, 1000, ⟨.fin 2, .fin 2, some (.fin 2, .nan)⟩, .decimal, 10, none, 2, none⟩
        2 (fun _ _ => 1) := by
  constructor
  · with_unfolding_all decide
  · with_unfolding_all decide

/-- JS `Math.round`: round half toward positive infinity. -/
def jsRound (q : ℚ) : ℤ := ⌊q + 1/2⌋

/-- `decimalToAmerican` from `oddsConverter.js`. `ℚ` division is total with
junk value `0` at `decimal = 1` (where JS divides by zero); every caller
passes a normalized value `≥ 1.01`. -/
def decimalToAmerican (decimal : ℚ) : ℤ :=
  if 2 ≤ decimal then jsRound ((decimal - 1) * 100)
  else jsRound (-100 / (decimal - 1))

/-- `decimalToFractional` from `oddsConverter.js`: hundredths numerator,
reduced by the gcd (the JS recursive `gcd` agrees with `Int.gcd` on the
non-negative numerators produced for `decimal ≥ 1`, the range of every
caller). -/
def decimalToFractional (decimal : ℚ) : ℤ × ℤ :=
  let fraction := decimal - 1
  let numerator := jsRound (fraction * 100)
  let denominator : ℤ := 100
  let divisor : ℤ := Int.gcd numerator denominator
  (numerator / divisor, denominator / divisor)

/-- `Number.prototype.toFixed(digits)`, modelled as exact decimal rounding
to `digits` places: the numeric value carried by the display string. -/
def toFixed (digits : ℕ) (q : ℚ) : ℚ :=
  (jsRound (q * 10 ^ digits) : ℚ) / 10 ^ digits

/-- The numeric content of the display string produced by `formatOdds`
(the `+` sign marker of positive American odds and the `%` mark of implied
probabilities are presentation only). -/
inductive FormattedOdds where
  | dec : ℚ → FormattedOdds
  | amer : ℤ → FormattedOdds
  | frac : ℤ × ℤ → FormattedOdds
  | impl : ℚ → FormattedOdds
deriving DecidableEq, Repr

/-- `formatOdds` from `oddsConverter.js` (`fromDecimal` in the
specification). -/
def formatOdds (decimal : ℚ) : OddsType → FormattedOdds
  | OddsType.decimal => .dec (toFixed 2 decimal)
  | OddsType.american => .amer (decimalToAmerican decimal)
  | OddsType.fractional => .frac (decimalToFractional decimal)
  | OddsType.implied => .impl (toFixed 1 (decimalToImpliedProbability decimal))

/-- Counterexample to C8: the American odds value `-100` (within the claimed
domain `|x| ≥ 100`) round-trips to `+100`: `americanToDecimal(-100) = 2`
and `decimalToAmerican(2)` takes the `decimal >= 2` branch, yielding `100`,
which is `200` away from the input — far beyond rounding tolerance. -/
theorem americanRoundTrip_neg100 :
    formatOdds (convertToDecimal ⟨.nan, .fin (-100), none⟩ .american) .american =
      .amer 100 ∧ |(100 : ℚ) - (-100)| = 200 := by
  constructor
  · with_unfolding_all decide
  · norm_num

/-- `Math.round` moves a value by at most one half. -/
lemma jsRound_close (q : ℚ) : |(jsRound q : ℚ) - q| ≤ 1/2 := by
  unfold jsRound
  rw [abs_le]
  constructor
  · have h := Int.lt_floor_add_one (q + 1/2)
    push_cast at h ⊢
    linarith
  · have h := Int.floor_le (q + 1/2)
    push_cast at h ⊢
    linarith

/-- `Math.round` fixes integers. -/
lemma jsRound_intCast (a : ℤ) : jsRound (a : ℚ) = a := by
  unfold jsRound
  rw [add_comm, Int.floor_add_int]
  norm_num

/-- `toFixed` moves a value by at most half a unit in the last displayed
place. -/
lemma toFixed_close (d : ℕ) (q : ℚ) : |toFixed d q - q| ≤ 1 / 2 / 10 ^ d := by
  unfold toFixed
  have h10 : (0:ℚ) < 10 ^ d := by positivity
  have hsplit : (jsRound (q * 10 ^ d) : ℚ) / 10 ^ d - q =
      ((jsRound (q * 10 ^ d) : ℚ) - q * 10 ^ d) / 10 ^ d := by
    field_simp
    ring
  rw [hsplit, abs_div, abs_of_pos h10]
  exact (div_le_div_right h10).mpr (jsRound_close (q * 10 ^ d))

/-- A well-formed decimal input (`parseFloat` gives `x ≥ 1.01`) is
normalized to itself. -/
lemma convertToDecimal_decimal_eq (i : ParsedInput) (x : ℚ) (hx : 101/100 ≤ x)
    (hi : i.toFloat = .fin x) : convertToDecimal i .decimal = x := by
  simp only [convertToDecimal, hi]
  rw [if_neg (not_lt.mpr hx)]

/-- Evaluation of the JSNum primitives on finite values. -/
lemma JSNum.lt_fin (a b : ℚ) : (JSNum.fin a).lt (JSNum.fin b) = decide (a < b) := rfl

/-- `le` on finite values. -/
lemma JSNum.le_fin (a b : ℚ) : (JSNum.fin a).le (JSNum.fin b) = decide (a ≤ b) := rfl

/-- `add` on finite values. -/
lemma JSNum.add_fin (a b : ℚ) : (JSNum.fin a).add (JSNum.fin b) = JSNum.fin (a + b) := rfl

/-- `abs` on finite values. -/
lemma JSNum.abs_fin (a : ℚ) : (JSNum.fin a).abs = JSNum.fin |a| := rfl

/-- `div` on finite values with a nonzero divisor. -/
lemma JSNum.div_fin (a b : ℚ) (hb : b ≠ 0) :
    (JSNum.fin a).div (JSNum.fin b) = JSNum.fin (a / b) := by
  simp [JSNum.div, hb]

/-- `Math.max` on finite values is the order maximum. -/
lemma JSNum.max_fin (a b : ℚ) :
    JSNum.max (JSNum.fin a) (JSNum.fin b) = JSNum.fin (Max.max a b) := by
  unfold JSNum.max
  rw [if_neg (by simp [JSNum.isNaN]), JSNum.lt_fin]
  by_cases h : a < b
  · rw [if_pos (by simpa using h), max_eq_right h.le]
  · rw [if_neg (by simpa using h), max_eq_left (not_lt.mp h)]

/-- A well-formed positive American input (`parseInt` gives an integer
`a ≥ 100`) is normalized to `a/100 + 1`. -/
lemma convertToDecimal_american_pos (i : ParsedInput) (a : ℤ) (ha : 100 ≤ a)
    (hi : i.toInt = .fin (a:ℚ)) :
    convertToDecimal i .american = (a:ℚ)/100 + 1 := by
  have ha' : (100:ℚ) ≤ (a:ℚ) := by exact_mod_cast ha
  have hdivge : (1:ℚ) ≤ (a:ℚ)/100 := by
    rw [le_div_iff (show (0:ℚ) < 100 by norm_num)]
    linarith
  have h0a : (0:ℚ) < (a:ℚ) := by linarith
  have hamer : americanToDecimal (JSNum.fin (a:ℚ)) = JSNum.fin ((a:ℚ)/100 + 1) := by
    unfold americanToDecimal
    rw [JSNum.lt_fin, decide_eq_true h0a, if_pos rfl,
      JSNum.div_fin _ _ (show (100:ℚ) ≠ 0 by norm_num), JSNum.add_fin, JSNum.max_fin,
      max_eq_left (by linarith : (101:ℚ)/100 ≤ (a:ℚ)/100 + 1)]
  simp only [convertToDecimal, hi, hamer]
  rw [if_neg (not_lt.mpr (by linarith : (101:ℚ)/100 ≤ (a:ℚ)/100 + 1))]

/-- A well-formed negative American input with `-10000 ≤ a ≤ -101` is
normalized to `100/|a| + 1` (below `-10000` the result would be clamped up
to `1.01`, above `-101` the value `-100` maps onto the positive branch of
the inverse). -/
lemma convertToDecimal_american_neg (i : ParsedInput) (a : ℤ)
    (hlo : -10000 ≤ a) (hhi : a ≤ -101) (hi : i.toInt = .fin (a:ℚ)) :
    convertToDecimal i .american = 100 / |(a:ℚ)| + 1 := by
  have hhi' : (a:ℚ) ≤ -101 := by exact_mod_cast hhi
  have hlo' : (-10000:ℚ) ≤ (a:ℚ) := by exact_mod_cast hlo
  have haneg : (a:ℚ) < 0 := by linarith
  have habs : (101:ℚ) ≤ |(a:ℚ)| := by
    rw [abs_of_neg haneg]
    linarith
  have habs_hi : |(a:ℚ)| ≤ 10000 := by
    rw [abs_of_neg haneg]
    linarith
  have habs0 : (0:ℚ) < |(a:ℚ)| := by linarith
  have hq_lo : (1:ℚ)/100 ≤ 100 / |(a:ℚ)| := by
    rw [div_le_div_iff (by norm_num) habs0]
    linarith
  have key : (101:ℚ)/100 ≤ 100 / |(a:ℚ)| + 1 := by linarith
  have hamer : americanToDecimal (JSNum.fin (a:ℚ)) = JSNum.fin (100 / |(a:ℚ)| + 1) := by
    simp only [americanToDecimal, JSNum.lt_fin, JSNum.abs_fin,
      decide_eq_false (not_lt.mpr haneg.le), decide_eq_true haneg,
      Bool.false_eq_true, if_false, if_true,
      JSNum.div_fin _ _ (ne_of_gt habs0), JSNum.add_fin, JSNum.max_fin,
      max_eq_left key]
    rw [if_neg (by simp only [decide_eq_true_eq, not_lt]; linarith)]
  simp only [convertToDecimal, hi, hamer]
  rw [if_neg (not_lt.mpr key)]

/-- A well-formed fractional input `n/d` with positive integers and value
at least `1/100` is normalized to `n/d + 1`. -/
lemma convertToDecimal_fractional_eq (i : ParsedInput) (n d : ℕ) (hd : 0 < d)
    (hr : (1:ℚ)/100 ≤ (n:ℚ)/d) (hi : i.toFrac = some (.fin n, .fin d)) :
    convertToDecimal i .fractional = (n:ℚ)/d + 1 := by
  have hd0 : ((d:ℚ)) ≠ 0 := (Nat.cast_pos.mpr hd).ne.symm
  have key : (101:ℚ)/100 ≤ (n:ℚ)/d + 1 := by linarith
  have hfr : fractionalToDecimal (some (.fin n, .fin d)) = JSNum.fin ((n:ℚ)/d + 1) := by
    simp only [fractionalToDecimal, JSNum.isNaN, JSNum.isFinite, JSNum.lt_fin,
      JSNum.div_fin _ _ hd0, JSNum.add_fin]
    rw [if_neg (by simp [hd0]), if_neg (by simp; linarith)]
  simp only [convertToDecimal, hi, hfr]
  rw [if_neg (not_lt.mpr key)]

/-- A well-formed implied-probability input in `(0, 10000/101]` is
normalized to `100/p` (above `10000/101 ≈ 99.01` the decimal value would be
clamped up to `1.01`). -/
lemma convertToDecimal_implied_eq (i : ParsedInput) (p : ℚ) (h0 : 0 < p)
    (h1 : p ≤ 10000/101) (hi : i.toFloat = .fin p) :
    convertToDecimal i .implied = 100 / p := by
  have hp100 : p < 100 := by linarith
  have key : (101:ℚ)/100 ≤ 100 / p := by
    rw [div_le_div_iff (by norm_num) h0]
    linarith
  have himp : impliedProbabilityToDecimal (JSNum.fin p) = JSNum.fin (100 / p) := by
    simp only [impliedProbabilityToDecimal, JSNum.le_fin, JSNum.isFinite,
      decide_eq_false (not_le.mpr h0), decide_eq_false (not_le.mpr hp100),
      Bool.false_eq_true, if_false, or_self, or_false,
      JSNum.div_fin _ _ (ne_of_gt h0)]
    rw [if_neg (by simp)]
  simp only [convertToDecimal, hi, himp]
  rw [if_neg (not_lt.mpr key)]

/-- The American inverse is exact on the positive branch. -/
lemma decimalToAmerican_pos (a : ℤ) (ha : 100 ≤ a) :
    decimalToAmerican ((a:ℚ)/100 + 1) = a := by
  have ha' : (100:ℚ) ≤ (a:ℚ) := by exact_mod_cast ha
  have h1 : (1:ℚ) ≤ (a:ℚ)/100 := by
    rw [le_div_iff (show (0:ℚ) < 100 by norm_num)]
    linarith
  unfold decimalToAmerican
  rw [if_pos (by linarith : (2:ℚ) ≤ (a:ℚ)/100 + 1)]
  have harg : ((a:ℚ)/100 + 1 - 1) * 100 = (a:ℚ) := by
    field_simp
  rw [harg, jsRound_intCast]

/-- The American inverse is exact on the negative branch for
`-10000 ≤ a ≤ -101`. -/
lemma decimalToAmerican_neg (a : ℤ) (hlo : -10000 ≤ a) (hhi : a ≤ -101) :
    decimalToAmerican (100 / |(a:ℚ)| + 1) = a := by
  have hhi' : (a:ℚ) ≤ -101 := by exact_mod_cast hhi
  have haneg : (a:ℚ) < 0 := by linarith
  have habs : (101:ℚ) ≤ |(a:ℚ)| := by
    rw [abs_of_neg haneg]
    linarith
  have habs0 : (0:ℚ) < |(a:ℚ)| := by linarith
  have hlt1 : 100 / |(a:ℚ)| < 1 := by
    rw [div_lt_one habs0]
    linarith
  unfold decimalToAmerican
  rw [if_neg (by linarith : ¬ (2:ℚ) ≤ 100 / |(a:ℚ)| + 1)]
  have harg : -100 / (100 / |(a:ℚ)| + 1 - 1) = (a:ℚ) := by
    rw [show 100 / |(a:ℚ)| + 1 - 1 = 100 / |(a:ℚ)| by ring, div_div_eq_mul_div,
      abs_of_neg haneg]
    field_simp
  rw [harg, jsRound_intCast]

/-- What the fractional inverse produces: a positive-denominator pair whose
value is the hundredths rounding of the fractional part. -/
lemma decimalToFractional_spec (x : ℚ) :
    ∃ p q : ℤ, decimalToFractional (x + 1) = (p, q) ∧ 0 < q ∧
      (p:ℚ)/(q:ℚ) = (jsRound (x * 100) : ℚ)/100 := by
  have hxx : (x + 1 - 1) * 100 = x * 100 := by ring
  simp only [decimalToFractional, hxx]
  set m : ℤ := jsRound (x * 100) with hm
  have hgnat : 0 < Int.gcd m 100 := Int.gcd_pos_iff.mpr (Or.inr (by norm_num))
  set g : ℤ := (Int.gcd m 100 : ℤ) with hg
  have hg0 : (0:ℤ) < g := by
    rw [hg]
    exact_mod_cast hgnat
  have hgne : g ≠ 0 := ne_of_gt hg0
  have hdm : g ∣ m := Int.gcd_dvd_left
  have hd100 : g ∣ (100:ℤ) := Int.gcd_dvd_right
  obtain ⟨m', hm'⟩ := hdm
  obtain ⟨k, hk⟩ := hd100
  have hmdiv : m / g = m' := by
    rw [hm', Int.mul_ediv_cancel_left _ hgne]
  have hkdiv : (100:ℤ) / g = k := by
    rw [hk, Int.mul_ediv_cancel_left _ hgne]
  have hkpos : 0 < k := by
    by_contra hc
    push_neg at hc
    nlinarith
  refine ⟨m', k, ?_, hkpos, ?_⟩
  · rw [hmdiv, hkdiv]
  · have hkq : ((k:ℚ)) ≠ 0 := by exact_mod_cast ne_of_gt hkpos
    rw [div_eq_div_iff hkq (show (100:ℚ) ≠ 0 by norm_num)]
    have : (m:ℚ) = (g:ℚ) * (m':ℚ) := by exact_mod_cast congrArg Int.cast hm'
    have h100 : (100:ℚ) = (g:ℚ) * (k:ℚ) := by exact_mod_cast congrArg Int.cast hk
    have hgq : ((g:ℚ)) ≠ 0 := by exact_mod_cast hgne
    rw [h100, this]
    ring

/-- The implied-probability inverse is exact on valid decimal values. -/
lemma decimalToImpliedProbability_inv (p : ℚ) (h0 : 0 < p)
    (hkey : 101/100 ≤ 100/p) : decimalToImpliedProbability (100/p) = p := by
  rw [decimalToImpliedProbability_of_ge _ hkey]
  field_simp

/-- C8 (amended). The round trip `fromDecimal(toDecimal(x, T), T)`
(`formatOdds` after `convertToDecimal`) recovers `x` up to rounding
tolerance on the following domains, which exclude inputs the normalizer
clamps or the American inverse folds: decimal `x ≥ 1.01` (to half a
hundredth); American integers with `x ≥ 100` or `-10000 ≤ x ≤ -101`
(exactly — `x = -100` flips to `+100` and `x < -10000` is clamped);
fractional `n/d` with positive integers and `n/d ≥ 1/100` (value recovered
to half a hundredth); implied percentages in `(0, 10000/101]` (to half a
tenth). -/
theorem oddsRoundTrip_amended (i : ParsedInput) :
    (∀ x : ℚ, 101/100 ≤ x → i.toFloat = .fin x →
      ∃ v, formatOdds (convertToDecimal i .decimal) .decimal = .dec v ∧
        |v - x| ≤ 1/200) ∧
    (∀ a : ℤ, (100 ≤ a ∨ (-10000 ≤ a ∧ a ≤ -101)) → i.toInt = .fin (a:ℚ) →
      formatOdds (convertToDecimal i .american) .american = .amer a) ∧
    (∀ n d : ℕ, 0 < n → 0 < d → (1:ℚ)/100 ≤ (n:ℚ)/d →
      i.toFrac = some (.fin n, .fin d) →
      ∃ p q : ℤ, formatOdds (convertToDecimal i .fractional) .fractional = .frac (p, q) ∧
        0 < q ∧ |(p:ℚ)/(q:ℚ) - (n:ℚ)/d| ≤ 1/200) ∧
    (∀ p : ℚ, 0 < p → p ≤ 10000/101 → i.toFloat = .fin p →
      ∃ v, formatOdds (convertToDecimal i .implied) .implied = .impl v ∧
        |v - p| ≤ 1/20) := by
  refine ⟨?_, ?_, ?_, ?_⟩
  · intro x hx hi
    rw [convertToDecimal_decimal_eq i x hx hi]
    refine ⟨toFixed 2 x, rfl, ?_⟩
    have h := toFixed_close 2 x
    norm_num at h
    exact h
  · intro a ha hi
    rcases ha with ha | ⟨hlo, hhi⟩
    · rw [convertToDecimal_american_pos i a ha hi]
      simp only [formatOdds]
      rw [decimalToAmerican_pos a ha]
    · rw [convertToDecimal_american_neg i a hlo hhi hi]
      simp only [formatOdds]
      rw [decimalToAmerican_neg a hlo hhi]
  · intro n d hn hd hr hi
    rw [convertToDecimal_fractional_eq i n d hd hr hi]
    obtain ⟨p, q, heq, hq, hval⟩ := decimalToFractional_spec ((n:ℚ)/d)
    refine ⟨p, q, ?_, hq, ?_⟩
    · simp only [formatOdds]
      rw [heq]
    · have hfx : ((jsRound ((n:ℚ)/d * 100) : ℤ):ℚ)/100 = toFixed 2 ((n:ℚ)/d) := by
        unfold toFixed
        norm_num
      rw [hval, hfx]
      have h := toFixed_close 2 ((n:ℚ)/d)
      norm_num at h
      exact h
  · intro p h0 h1 hi
    have hkey : (101:ℚ)/100 ≤ 100/p := by
      rw [div_le_div_iff (by norm_num) h0]
      linarith
    rw [convertToDecimal_implied_eq i p h0 h1 hi]
    refine ⟨toFixed 1 p, ?_, ?_⟩
    · simp only [formatOdds]
      rw [decimalToImpliedProbability_inv p h0 hkey]
    · have h := toFixed_close 1 p
      norm_num at h
      exact h

/-- Witness for C8 at a single input carrying all three parse results:
decimal `2.00`, American `+150`, fractional `3/2`, implied `2%`. -/
theorem oddsRoundTrip_amended_witness :
    (∃ v, formatOdds (convertToDecimal ⟨.fin 2, .fin 150, some (.fin 3, .fin 2)⟩
        .decimal) .decimal = .dec v ∧ |v - 2| ≤ 1/200) ∧
    formatOdds (convertToDecimal ⟨.fin 2, .fin 150, some (.fin 3, .fin 2)⟩
        .american) .american = .amer 150 ∧
    (∃ p q : ℤ, formatOdds (convertToDecimal ⟨.fin 2, .fin 150, some (.fin 3, .fin 2)⟩
        .fractional) .fractional = .frac (p, q) ∧
      0 < q ∧ |(p:ℚ)/(q:ℚ) - (3:ℚ)/2| ≤ 1/200) ∧
    (∃ v, formatOdds (convertToDecimal ⟨.fin 2, .fin 150, some (.fin 3, .fin 2)⟩
        .implied) .implied = .impl v ∧ |v - 2| ≤ 1/20) :=
  ⟨(oddsRoundTrip_amended _).1 2 (by norm_num) rfl,
    (oddsRoundTrip_amended _).2.1 150 (Or.inl (by norm_num)) (by norm_num),
    (oddsRoundTrip_amended _).2.2.1 3 2 (by norm_num) (by norm_num) (by norm_num)
      (by norm_num),
    (oddsRoundTrip_amended _).2.2.2 2 (by norm_num) (by norm_num) rfl⟩
